import Mathlib

/-!
# Verification of `github-latest-release` (`src/api/download.go`)

A shallow embedding of the single-file Go HTTP handler that redirects to the
newest GitHub release asset.  Pure Go functions become Lean functions; the
HTTP handler `DownloadLatestGithubRelease` becomes a pure function of the
request method, the `repo` and `name` query parameters, and the decoded
upstream release list (`none` models the silent-return paths where the
outbound request, body read, or JSON decode fails and no response is written).

Timestamps: the Go code calls `time.Parse(time.RFC3339, s)` and then
`t.Unix()`, ignoring the parse error.  On parse failure Go returns the zero
`time.Time`, whose `Unix()` value is `-62135596800` (Jan 1, year 1, UTC).
`parseRFC3339` below mirrors Go's RFC3339 parsing: fixed-width numeric
fields, literal separators, an optional fractional-second part, and a
`Z`/`±hh:mm` zone, with the range checks Go performs, returning the Unix
seconds on success.
-/

/-- One downloadable file attached to a release: the fields of the anonymous
`Assets` element struct in `GitHubReleasesResp` that the logic reads
(`Name`, `BrowserDownloadUrl`); the rest is opaque pass-through data. -/
structure Asset where
  name : String
  browserDownloadUrl : String
  deriving Repr, DecidableEq

/-- One release, `GitHubReleasesResp` in the Go source: the fields the logic
reads (`PublishedAt`, `Assets`); the rest is opaque pass-through data. -/
structure GitHubReleasesResp where
  publishedAt : String
  assets : List Asset
  deriving Repr, DecidableEq

/-- Numeric value of a decimal digit character. -/
def digitVal (c : Char) : Nat := c.toNat - 48

/-- Read exactly `n` decimal digits (accumulator `acc`), returning the value
and the remaining characters; fails if a non-digit appears first
(Go `getnum` with a fixed width). -/
def getnum : List Char → Nat → Nat → Option (Nat × List Char)
  | cs, 0, acc => some (acc, cs)
  | [], _ + 1, _ => none
  | c :: cs, n + 1, acc =>
      if c.isDigit then getnum cs n (acc * 10 + digitVal c) else none

/-- Consume one expected literal character. -/
def expectChar : List Char → Char → Option (List Char)
  | c :: rest, c' => if c = c' then some rest else none
  | [], _ => none

/-- Drop a leading run of decimal digits. -/
def dropDigits : List Char → List Char
  | [] => []
  | c :: rest => if c.isDigit then dropDigits rest else c :: rest

/-- Skip an optional fractional-second part: a `.` or `,` followed by at
least one digit (Go consumes and discards it when converting to seconds). -/
def skipFrac (cs : List Char) : List Char :=
  match cs with
  | c :: d :: rest =>
      if (c = '.' || c = ',') && d.isDigit then dropDigits (d :: rest) else cs
  | _ => cs

/-- Parse the zone suffix, which must end the string: `Z` for UTC or
`±hh:mm` with `hh ≤ 23`, `mm ≤ 59`; returns the offset east of UTC in
seconds. -/
def parseZone (cs : List Char) : Option Int :=
  match cs with
  | ['Z'] => some 0
  | c :: rest =>
      if c = '+' || c = '-' then
        match getnum rest 2 0 with
        | none => none
        | some (hh, cs1) =>
          match expectChar cs1 ':' with
          | none => none
          | some cs2 =>
            match getnum cs2 2 0 with
            | none => none
            | some (mm, cs3) =>
              if cs3 = [] ∧ hh ≤ 23 ∧ mm ≤ 59 then
                some (if c = '-' then -(Int.ofNat (hh * 3600 + mm * 60))
                      else Int.ofNat (hh * 3600 + mm * 60))
              else none
      else none
  | [] => none

/-- Gregorian leap-year test. -/
def isLeapYear (y : Nat) : Bool :=
  y % 4 = 0 && (y % 100 ≠ 0 || y % 400 = 0)

/-- Number of days in month `m` of year `y`. -/
def daysInMonth (y m : Nat) : Nat :=
  if m = 2 then (if isLeapYear y then 29 else 28)
  else if m = 4 ∨ m = 6 ∨ m = 9 ∨ m = 11 then 30
  else 31

/-- Days from the civil date `y-m-d` to the Unix epoch 1970-01-01
(proleptic Gregorian calendar). -/
def daysFromCivil (y : Int) (m d : Nat) : Int :=
  let y2 : Int := if m ≤ 2 then y - 1 else y
  let era : Int := (if 0 ≤ y2 then y2 else y2 - 399) / 400
  let yoe : Int := y2 - era * 400
  let mp : Int := (Int.ofNat m + 9) % 12
  let doy : Int := (153 * mp + 2) / 5 + (Int.ofNat d - 1)
  let doe : Int := yoe * 365 + yoe / 4 - yoe / 100 + doy
  era * 146097 + doe - 719468

/-- Go's `time.Parse(time.RFC3339, s)` followed by `.Unix()`, as a partial
function to Unix seconds: layout `2006-01-02T15:04:05Z07:00` with fixed
widths, an optional fractional second, and Go's range checks. -/
def parseRFC3339 (s : String) : Option Int := do
  let (year, cs1) ← getnum s.data 4 0
  let cs2 ← expectChar cs1 '-'
  let (month, cs3) ← getnum cs2 2 0
  let cs4 ← expectChar cs3 '-'
  let (day, cs5) ← getnum cs4 2 0
  let cs6 ← expectChar cs5 'T'
  let (hour, cs7) ← getnum cs6 2 0
  let cs8 ← expectChar cs7 ':'
  let (minute, cs9) ← getnum cs8 2 0
  let cs10 ← expectChar cs9 ':'
  let (second, cs11) ← getnum cs10 2 0
  let offset ← parseZone (skipFrac cs11)
  if 1 ≤ month ∧ month ≤ 12 ∧ 1 ≤ day ∧ day ≤ daysInMonth year month ∧
      hour ≤ 23 ∧ minute ≤ 59 ∧ second ≤ 59 then
    some (daysFromCivil (Int.ofNat year) month day * 86400 +
      Int.ofNat (hour * 3600 + minute * 60 + second) - offset)
  else none

/-- `Unix()` of Go's zero `time.Time` (January 1, year 1, 00:00:00 UTC),
which `time.Parse` returns alongside any error. -/
def goZeroTimeUnix : Int := -62135596800

/-- `TimeStrToUnix` from the source: empty string maps to 0; otherwise the
string is parsed as RFC3339 and the error is ignored, so an unparsable
string yields the zero time's Unix seconds. -/
def TimeStrToUnix (s : String) : Int :=
  if s = "" then 0
  else
    match parseRFC3339 s with
    | some u => u
    | none => goZeroTimeUnix

/-- The timestamp by which releases are compared. -/
def releaseKey (r : GitHubReleasesResp) : Int := TimeStrToUnix r.publishedAt

/-- The `for _, r := range resp` loop of `GetLatestRelease`, with `max` the
running maximum: a strictly greater `publishedAt` timestamp replaces it. -/
def selectLoop : List GitHubReleasesResp → GitHubReleasesResp → GitHubReleasesResp
  | [], max => max
  | r :: rest, max =>
      if TimeStrToUnix r.publishedAt > TimeStrToUnix max.publishedAt
      then selectLoop rest r
      else selectLoop rest max

/-- `GetLatestRelease` from the source: `nil` (here `none`) for an empty
list, the single element for a one-element list, otherwise the scan
starting from `resp[0]` over the whole list. -/
def GetLatestRelease : List GitHubReleasesResp → Option GitHubReleasesResp
  | [] => none
  | [r] => some r
  | r :: rest => some (selectLoop (r :: rest) r)

/-- The `for _, a := range r.Assets` search in `AssertByName`: first asset
whose `Name` equals `name`. -/
def findAsset : List Asset → String → Option Asset
  | [], _ => none
  | a :: rest, name => if a.name = name then some a else findAsset rest name

/-- `AssertByName` from the source.  The receiver is `Option` because the Go
method is declared on a pointer receiver and checks `r == nil` itself.
Errors are the exact Go error strings. -/
def AssertByName (r : Option GitHubReleasesResp) (name : String) :
    Except String String :=
  if name.length = 0 then .error "release filename is empty"
  else
    match r with
    | none => .error "github api response is empty"
    | some rel =>
      if rel.assets.length = 0 then .error "asset list is empty"
      else
        match findAsset rel.assets name with
        | some a => .ok a.browserDownloadUrl
        | none => .error "not found"

/-- Go's `strings.Split` with a one-character separator: the list of
(possibly empty) segments between occurrences of `sep`; the empty string
yields one empty segment, as in Go. -/
def goSplit (sep : Char) : List Char → List (List Char)
  | [] => [[]]
  | c :: rest =>
      if c = sep then [] :: goSplit sep rest
      else
        match goSplit sep rest with
        | [] => [[c]]
        | seg :: segs => (c :: seg) :: segs

/-- `strings.Split(repoName, "/")` from the source, as segment strings. -/
def splitRepo (repo : String) : List String :=
  (goSplit '/' repo.data).map List.asString

/-- The `homePage` constant from the source. -/
def homePage : String := "https://github-latest-release.vercel.app"

/-- The observable response of one request: a JSON error envelope
`{code, msg}`, an HTTP redirect with a status code, a bare 405, or no
response at all (the Go handler's silent `return` on transport and decode
failures). -/
inductive HttpResponse where
  | json (code : Int) (msg : String)
  | redirect (url : String) (status : Nat)
  | methodNotAllowed
  | noResponse
  deriving Repr, DecidableEq

/-- `DownloadLatestGithubRelease` from the source as a pure function.
`method`, `repo` and `name` are the request method and query parameters (a
missing query parameter reads as `""` in Go); `upstream` is the decoded
upstream release list, `none` standing for the request-creation, transport,
body-read and JSON-decode failure paths on which the Go code logs and
returns without writing a response. -/
def DownloadLatestGithubRelease (method repo name : String)
    (upstream : Option (List GitHubReleasesResp)) : HttpResponse :=
  if method = "GET" then
    if repo = "" then
      .json (-1) ("please provide repo name, for more detail, visit: " ++ homePage)
    else if (splitRepo repo).length ≠ 2 then
      .json (-1) ("please check your repo name(" ++ repo ++
        "), for more detail, visit: " ++ homePage)
    else
      match upstream with
      | none => .noResponse
      | some releases =>
        match GetLatestRelease releases with
        | none => .json (-1) ("repo: " ++ repo ++ " has no release jet")
        | some ret =>
          match AssertByName (some ret) name with
          | .error e =>
              .json (-1) ("get repo: " ++ repo ++ "\x27s asset err: " ++ e)
          | .ok downloadURL => .redirect downloadURL 307
  else .methodNotAllowed

/-! ## Sample data reused by witnesses -/

/-- A sample asset used in witnesses. -/
def sampleAsset : Asset :=
  { name := "app.zip", browserDownloadUrl := "https://x/app.zip" }

/-- A sample release with an older timestamp. -/
def sampleRelease1 : GitHubReleasesResp :=
  { publishedAt := "2020-01-01T00:00:00Z", assets := [] }

/-- A sample release with a newer timestamp and one asset. -/
def sampleRelease2 : GitHubReleasesResp :=
  { publishedAt := "2023-06-01T00:00:00Z", assets := [sampleAsset] }

/-! ## The scan loop of `GetLatestRelease` -/

/-- The loop of `GetLatestRelease` either keeps the seed `m` (when nothing in
`rs` strictly beats it) or returns the first element of `rs` attaining the
maximum key, which then strictly beats `m` and everything before it. -/
theorem selectLoop_spec (rs : List GitHubReleasesResp) :
    ∀ m : GitHubReleasesResp,
      (selectLoop rs m = m ∧ ∀ x ∈ rs, releaseKey x ≤ releaseKey m) ∨
      (∃ l1 r l2, rs = l1 ++ r :: l2 ∧ selectLoop rs m = r ∧
        releaseKey m < releaseKey r ∧
        (∀ x ∈ l1, releaseKey x < releaseKey r) ∧
        (∀ x ∈ l2, releaseKey x ≤ releaseKey r)) := by
  induction rs with
  | nil => exact fun m => Or.inl ⟨rfl, by simp⟩
  | cons a rest ih =>
    intro m
    by_cases h : TimeStrToUnix a.publishedAt > TimeStrToUnix m.publishedAt
    · have hsel : selectLoop (a :: rest) m = selectLoop rest a := by
        simp [selectLoop, h]
      have hma : releaseKey m < releaseKey a := h
      rcases ih a with ⟨heq, hall⟩ | ⟨l1, r, l2, hdec, heq, hlt, hl1, hl2⟩
      · exact Or.inr ⟨[], a, rest, by simp, by rw [hsel, heq], hma, by simp, hall⟩
      · refine Or.inr ⟨a :: l1, r, l2, by rw [hdec]; rfl, by rw [hsel, heq],
          lt_trans hma hlt, ?_, hl2⟩
        intro x hx
        rcases List.mem_cons.mp hx with rfl | hx'
        · exact hlt
        · exact hl1 x hx'
    · have hsel : selectLoop (a :: rest) m = selectLoop rest m := by
        simp [selectLoop, h]
      have ham : releaseKey a ≤ releaseKey m := not_lt.mp h
      rcases ih m with ⟨heq, hall⟩ | ⟨l1, r, l2, hdec, heq, hlt, hl1, hl2⟩
      · refine Or.inl ⟨by rw [hsel, heq], ?_⟩
        intro x hx
        rcases List.mem_cons.mp hx with rfl | hx'
        · exact ham
        · exact hall x hx'
      · refine Or.inr ⟨a :: l1, r, l2, by rw [hdec]; rfl, by rw [hsel, heq],
          hlt, ?_, hl2⟩
        intro x hx
        rcases List.mem_cons.mp hx with rfl | hx'
        · exact lt_of_le_of_lt ham hlt
        · exact hl1 x hx'

/-- C1: For every non-empty release list, `GetLatestRelease` returns the
release whose `publishedAt`, parsed as RFC3339 and converted to Unix
seconds, is greatest, with ties resolved to the earliest-seen maximum: the
list decomposes as `l1 ++ r :: l2` where the result is `r`, every release
before `r` has a strictly smaller timestamp and every release after `r` has
a timestamp at most `r`'s.  A one-element list yields its element
(`l1 = l2 = []`). -/
theorem getLatestRelease_first_max (l : List GitHubReleasesResp) (h : l ≠ []) :
    ∃ l1 r l2, l = l1 ++ r :: l2 ∧ GetLatestRelease l = some r ∧
      (∀ x ∈ l1, releaseKey x < releaseKey r) ∧
      (∀ x ∈ l2, releaseKey x ≤ releaseKey r) := by
  match l with
  | [] => exact absurd rfl h
  | [r0] => exact ⟨[], r0, [], rfl, rfl, by simp, by simp⟩
  | a :: b :: rest =>
    have hgl : GetLatestRelease (a :: b :: rest) =
        some (selectLoop (b :: rest) a) := by
      simp [GetLatestRelease, selectLoop]
    rcases selectLoop_spec (b :: rest) a with ⟨heq, hall⟩ |
      ⟨l1, r, l2, hdec, heq, hlt, hl1, hl2⟩
    · exact ⟨[], a, b :: rest, rfl, by rw [hgl, heq], by simp, hall⟩
    · refine ⟨a :: l1, r, l2, by rw [hdec]; rfl, by rw [hgl, heq], ?_, hl2⟩
      intro x hx
      rcases List.mem_cons.mp hx with rfl | hx'
      · exact hlt
      · exact hl1 x hx'

/-- C1 witness: the characterization applied to a concrete two-element
list. -/
theorem getLatestRelease_first_max_witness :
    ∃ l1 r l2, [sampleRelease1, sampleRelease2] = l1 ++ r :: l2 ∧
      GetLatestRelease [sampleRelease1, sampleRelease2] = some r ∧
      (∀ x ∈ l1, releaseKey x < releaseKey r) ∧
      (∀ x ∈ l2, releaseKey x ≤ releaseKey r) :=
  getLatestRelease_first_max [sampleRelease1, sampleRelease2] (by simp)

/-- C9: the result of `GetLatestRelease` is `none` exactly on the empty
list, and any returned release is an element of the input list. -/
theorem getLatestRelease_mem_and_none (l : List GitHubReleasesResp) :
    (GetLatestRelease l = none ↔ l = []) ∧
    (∀ r, GetLatestRelease l = some r → r ∈ l) := by
  match l with
  | [] => exact ⟨by simp [GetLatestRelease], by simp [GetLatestRelease]⟩
  | [r0] =>
    refine ⟨by simp [GetLatestRelease], ?_⟩
    intro r hr
    simp [GetLatestRelease] at hr
    simp [hr]
  | a :: b :: rest =>
    have hgl : GetLatestRelease (a :: b :: rest) =
        some (selectLoop (b :: rest) a) := by
      simp [GetLatestRelease, selectLoop]
    constructor
    · rw [hgl]; simp
    · intro r hr
      rw [hgl] at hr
      have hr' : selectLoop (b :: rest) a = r := by injection hr
      rcases selectLoop_spec (b :: rest) a with ⟨heq, _⟩ |
        ⟨l1, r', l2, hdec, heq, _, _, _⟩
      · rw [heq] at hr'
        simp [← hr']
      · rw [heq] at hr'
        rw [← hr', hdec]
        exact List.mem_cons_of_mem a
          (List.mem_append_right l1 (List.mem_cons_self r' l2))

/-! ## Timestamp conversion (C2) -/

/-- C2 counterexample: the non-empty string `"not-a-date"` fails RFC3339
parsing, yet `TimeStrToUnix` yields `-62135596800` (the Unix seconds of
Go's zero time), not Unix second 0 as the claim states. -/
theorem timeStrToUnix_not_zero_counterexample :
    parseRFC3339 "not-a-date" = none ∧
      TimeStrToUnix "not-a-date" = -62135596800 ∧
      TimeStrToUnix "not-a-date" ≠ 0 := by
  refine ⟨by decide, by decide, by decide⟩

/-- C2 amended: an empty `publishedAt` converts to Unix second 0, while a
non-empty string that fails to parse converts to `-62135596800`, the Unix
seconds of Go's zero `time.Time`; in either case the value is nonpositive,
so in latest-release selection such a release loses to any release whose
timestamp has positive Unix seconds. -/
theorem timeStrToUnix_invalid_loses (s : String) (hp : s ≠ "" → parseRFC3339 s = none)
    (r r' : GitHubReleasesResp) (hr : r.publishedAt = s)
    (hk : 0 < releaseKey r') :
    (s = "" → TimeStrToUnix s = 0) ∧
    (s ≠ "" → TimeStrToUnix s = goZeroTimeUnix) ∧
    GetLatestRelease [r, r'] = some r' := by
  have hzero : goZeroTimeUnix < 0 := by decide
  have hs : TimeStrToUnix s ≤ 0 := by
    by_cases hne : s = ""
    · simp [TimeStrToUnix, hne]
    · simp [TimeStrToUnix, hne, hp hne]
      exact le_of_lt hzero
  have hlt : TimeStrToUnix r.publishedAt < TimeStrToUnix r'.publishedAt := by
    rw [hr]
    exact lt_of_le_of_lt hs hk
  refine ⟨fun he => by simp [TimeStrToUnix, he], fun hne => by
    simp [TimeStrToUnix, hne, hp hne], ?_⟩
  have h1 : ¬ TimeStrToUnix r.publishedAt > TimeStrToUnix r.publishedAt :=
    lt_irrefl _
  simp only [GetLatestRelease, selectLoop, if_neg h1, if_pos hlt]

/-- C2 witness: the amended statement applied to `"not-a-date"` and the
sample releases. -/
theorem timeStrToUnix_invalid_loses_witness :
    (("not-a-date" : String) = "" → TimeStrToUnix "not-a-date" = 0) ∧
    (("not-a-date" : String) ≠ "" → TimeStrToUnix "not-a-date" = goZeroTimeUnix) ∧
    GetLatestRelease [⟨"not-a-date", []⟩, sampleRelease2] = some sampleRelease2 :=
  timeStrToUnix_invalid_loses "not-a-date" (fun _ => by decide)
    ⟨"not-a-date", []⟩ sampleRelease2 rfl (by decide)

/-! ## Repo parameter validation (C3, C4) -/

/-- C3 counterexample: `"owner/"` does not consist of two non-empty
segments, yet the handler does not answer with the malformed-repo envelope:
it proceeds to the upstream call (the response depends on the upstream
result, and with an empty upstream list it is the no-release envelope). -/
theorem malformed_repo_counterexample :
    DownloadLatestGithubRelease "GET" "owner/" "x" (some []) =
      HttpResponse.json (-1) "repo: owner/ has no release jet" ∧
    DownloadLatestGithubRelease "GET" "owner/" "x" none = HttpResponse.noResponse ∧
    DownloadLatestGithubRelease "GET" "owner/" "x" (some []) ≠
      HttpResponse.json (-1)
        ("please check your repo name(owner/), for more detail, visit: " ++ homePage) := by
  refine ⟨by decide, by decide, by decide⟩

/-- C3 amended: the handler rejects `repo` exactly when splitting it on
`"/"` yields a number of segments different from two, answering with the
malformed-repo envelope and never consulting the upstream (the response is
the same for any upstream value); segments are not checked for emptiness,
so values such as `"owner/"` or `"/name"` pass validation. -/
theorem malformed_repo_rejected (repo name : String)
    (u u' : Option (List GitHubReleasesResp))
    (h0 : repo ≠ "") (h2 : (splitRepo repo).length ≠ 2) :
    DownloadLatestGithubRelease "GET" repo name u =
      HttpResponse.json (-1)
        ("please check your repo name(" ++ repo ++
          "), for more detail, visit: " ++ homePage) ∧
    DownloadLatestGithubRelease "GET" repo name u =
      DownloadLatestGithubRelease "GET" repo name u' := by
  have h : DownloadLatestGithubRelease "GET" repo name u =
      HttpResponse.json (-1)
        ("please check your repo name(" ++ repo ++
          "), for more detail, visit: " ++ homePage) := by
    simp [DownloadLatestGithubRelease, h0, h2]
  have h' : DownloadLatestGithubRelease "GET" repo name u' =
      HttpResponse.json (-1)
        ("please check your repo name(" ++ repo ++
          "), for more detail, visit: " ++ homePage) := by
    simp [DownloadLatestGithubRelease, h0, h2]
  exact ⟨h, h.trans h'.symm⟩

/-- C3 witness: a repo value with no slash is rejected identically for two
different upstream values. -/
theorem malformed_repo_rejected_witness :
    DownloadLatestGithubRelease "GET" "ownername" "x" (some [sampleRelease2]) =
      HttpResponse.json (-1)
        ("please check your repo name(" ++ "ownername" ++
          "), for more detail, visit: " ++ homePage) ∧
    DownloadLatestGithubRelease "GET" "ownername" "x" (some [sampleRelease2]) =
      DownloadLatestGithubRelease "GET" "ownername" "x" none :=
  malformed_repo_rejected "ownername" "x" (some [sampleRelease2]) none
    (by decide) (by decide)

/-- C4: a missing or empty `repo` query parameter (Go's `Query().Get`
returns `""` for a missing parameter) is answered with the provide-repo
envelope naming the homepage, and the upstream is never consulted: the
response is the same for every upstream value. -/
theorem missing_repo_rejected (name : String)
    (u u' : Option (List GitHubReleasesResp)) :
    DownloadLatestGithubRelease "GET" "" name u =
      HttpResponse.json (-1)
        ("please provide repo name, for more detail, visit: " ++ homePage) ∧
    DownloadLatestGithubRelease "GET" "" name u =
      DownloadLatestGithubRelease "GET" "" name u' := by
  exact ⟨rfl, rfl⟩

/-! ## Asset resolution (C5, C6, C10) -/

/-- A string has length 0 exactly when it is empty (`len(name) == 0` in Go
is the same test as `name == ""`). -/
theorem string_length_zero_iff (s : String) : s.length = 0 ↔ s = "" := by
  rw [String.ext_iff]
  show s.data.length = 0 ↔ s.data = []
  exact List.length_eq_zero

/-- If no asset of the list has the requested name, the scan finds
nothing. -/
theorem findAsset_eq_none (assets : List Asset) (name : String)
    (h : ∀ a ∈ assets, a.name ≠ name) : findAsset assets name = none := by
  induction assets with
  | nil => rfl
  | cons a rest ih =>
    have ha : a.name ≠ name := h a (List.mem_cons_self a rest)
    simp only [findAsset, if_neg ha]
    exact ih fun x hx => h x (List.mem_cons_of_mem a hx)

/-- The scan returns the first asset with the requested name: everything
before it mismatches, so the match at the head of `a :: l2` is found. -/
theorem findAsset_first (l1 : List Asset) (a : Asset) (l2 : List Asset)
    (name : String) (ha : a.name = name) (hl1 : ∀ x ∈ l1, x.name ≠ name) :
    findAsset (l1 ++ a :: l2) name = some a := by
  induction l1 with
  | nil => simp [findAsset, ha]
  | cons x rest ih =>
    have hx : x.name ≠ name := hl1 x (List.mem_cons_self x rest)
    simp only [List.cons_append, findAsset, if_neg hx]
    exact ih fun y hy => hl1 y (List.mem_cons_of_mem x hy)

/-- C5: `AssertByName` fails with `"release filename is empty"` on an empty
name, with `"asset list is empty"` when the (non-empty-named) lookup hits a
release without assets, and with `"not found"` when no asset matches; and
any error `e` of `AssertByName` on the selected release is surfaced by the
handler as the envelope `{-1, "get repo: <repo>'s asset err: <e>"}`. -/
theorem assertByName_errors_surfaced (repo name : String)
    (releases : List GitHubReleasesResp) (r : GitHubReleasesResp)
    (h0 : repo ≠ "") (h2 : (splitRepo repo).length = 2)
    (hsel : GetLatestRelease releases = some r) :
    (name = "" → AssertByName (some r) name = .error "release filename is empty") ∧
    (name ≠ "" → r.assets = [] →
      AssertByName (some r) name = .error "asset list is empty") ∧
    (name ≠ "" → (∀ a ∈ r.assets, a.name ≠ name) → r.assets ≠ [] →
      AssertByName (some r) name = .error "not found") ∧
    (∀ e, AssertByName (some r) name = .error e →
      DownloadLatestGithubRelease "GET" repo name (some releases) =
        HttpResponse.json (-1)
          ("get repo: " ++ repo ++ "\x27s asset err: " ++ e)) := by
  refine ⟨?_, ?_, ?_, ?_⟩
  · intro hname
    have : name.length = 0 := (string_length_zero_iff name).mpr hname
    simp [AssertByName, this]
  · intro hname hassets
    have hlen : ¬ name.length = 0 := fun h =>
      hname ((string_length_zero_iff name).mp h)
    simp [AssertByName, hlen, hassets]
  · intro hname hmiss hassets
    have hlen : ¬ name.length = 0 := fun h =>
      hname ((string_length_zero_iff name).mp h)
    have hlen2 : ¬ r.assets.length = 0 := fun h =>
      hassets (List.length_eq_zero.mp h)
    simp [AssertByName, hlen, hlen2, findAsset_eq_none r.assets name hmiss]
  · intro e herr
    simp [DownloadLatestGithubRelease, h0, h2, hsel, herr]

/-- C5 witness: the selected sample release has one asset `"app.zip"`, so
the name `"missing.zip"` produces the `"not found"` error and the handler
surfaces it in the envelope. -/
theorem assertByName_errors_surfaced_witness :
    (("missing.zip" : String) = "" →
      AssertByName (some sampleRelease2) "missing.zip" =
        .error "release filename is empty") ∧
    (("missing.zip" : String) ≠ "" → sampleRelease2.assets = [] →
      AssertByName (some sampleRelease2) "missing.zip" =
        .error "asset list is empty") ∧
    (("missing.zip" : String) ≠ "" →
      (∀ a ∈ sampleRelease2.assets, a.name ≠ "missing.zip") →
      sampleRelease2.assets ≠ [] →
      AssertByName (some sampleRelease2) "missing.zip" = .error "not found") ∧
    (∀ e, AssertByName (some sampleRelease2) "missing.zip" = .error e →
      DownloadLatestGithubRelease "GET" "d4x1/repo" "missing.zip"
          (some [sampleRelease2]) =
        HttpResponse.json (-1)
          ("get repo: " ++ "d4x1/repo" ++ "\x27s asset err: " ++ e)) :=
  assertByName_errors_surfaced "d4x1/repo" "missing.zip" [sampleRelease2]
    sampleRelease2 (by decide) (by decide) rfl

/-- C6: with a non-empty requested name, the asset list is scanned
sequentially and the first asset whose name is exactly equal to the request
decides the result: `AssertByName` returns its `browser_download_url`, and
the handler answers with an HTTP 307 temporary redirect to it. -/
theorem first_matching_asset_redirect (repo name : String)
    (releases : List GitHubReleasesResp) (r : GitHubReleasesResp)
    (l1 : List Asset) (a : Asset) (l2 : List Asset)
    (h0 : repo ≠ "") (h2 : (splitRepo repo).length = 2)
    (hsel : GetLatestRelease releases = some r)
    (hname : name ≠ "")
    (hassets : r.assets = l1 ++ a :: l2)
    (ha : a.name = name)
    (hfirst : ∀ x ∈ l1, x.name ≠ name) :
    AssertByName (some r) name = .ok a.browserDownloadUrl ∧
    DownloadLatestGithubRelease "GET" repo name (some releases) =
      HttpResponse.redirect a.browserDownloadUrl 307 := by
  have hlen : ¬ name.length = 0 := fun h =>
    hname ((string_length_zero_iff name).mp h)
  have hlen2 : ¬ r.assets.length = 0 := by
    rw [hassets]
    simp
  have hfind : findAsset r.assets name = some a := by
    rw [hassets]
    exact findAsset_first l1 a l2 name ha hfirst
  have hok : AssertByName (some r) name = .ok a.browserDownloadUrl := by
    simp [AssertByName, hlen, hlen2, hfind]
  refine ⟨hok, ?_⟩
  simp [DownloadLatestGithubRelease, h0, h2, hsel, hok]

/-- C6 witness: requesting `"app.zip"` from the sample release redirects to
`"https://x/app.zip"` with status 307. -/
theorem first_matching_asset_redirect_witness :
    AssertByName (some sampleRelease2) "app.zip" =
      .ok sampleAsset.browserDownloadUrl ∧
    DownloadLatestGithubRelease "GET" "d4x1/repo" "app.zip"
        (some [sampleRelease2]) =
      HttpResponse.redirect sampleAsset.browserDownloadUrl 307 :=
  first_matching_asset_redirect "d4x1/repo" "app.zip" [sampleRelease2]
    sampleRelease2 [] sampleAsset [] (by decide) (by decide) rfl (by decide)
    rfl rfl (by simp)

/-! ## Empty release list (C7) -/

/-- C7: when the decoded upstream release list is empty, `GetLatestRelease`
returns `none` and the handler answers with the envelope
`{-1, "repo: <repo> has no release jet"}`. -/
theorem empty_release_list_envelope (repo name : String) (h0 : repo ≠ "")
    (h2 : (splitRepo repo).length = 2) :
    GetLatestRelease [] = none ∧
    DownloadLatestGithubRelease "GET" repo name (some []) =
      HttpResponse.json (-1) ("repo: " ++ repo ++ " has no release jet") := by
  refine ⟨rfl, ?_⟩
  simp [DownloadLatestGithubRelease, h0, h2, GetLatestRelease]

/-- C7 witness: the envelope for the concrete repo `"d4x1/repo"`. -/
theorem empty_release_list_envelope_witness :
    GetLatestRelease [] = none ∧
    DownloadLatestGithubRelease "GET" "d4x1/repo" "app.zip" (some []) =
      HttpResponse.json (-1)
        ("repo: " ++ "d4x1/repo" ++ " has no release jet") :=
  empty_release_list_envelope "d4x1/repo" "app.zip" (by decide) (by decide)

/-! ## Determinism (C8) -/

/-- C8: the handler is a pure function of the request method, the `repo`
and `name` parameters and the decoded upstream list: two runs on equal
inputs produce equal responses (no state accumulates between requests). -/
theorem handler_deterministic (method repo name : String)
    (u : Option (List GitHubReleasesResp)) (method' repo' name' : String)
    (u' : Option (List GitHubReleasesResp))
    (hm : method = method') (hr : repo = repo') (hn : name = name')
    (hu : u = u') :
    DownloadLatestGithubRelease method repo name u =
      DownloadLatestGithubRelease method' repo' name' u' := by
  rw [hm, hr, hn, hu]

/-- C8 witness: two identical concrete requests produce the same
response. -/
theorem handler_deterministic_witness :
    DownloadLatestGithubRelease "GET" "d4x1/repo" "app.zip"
        (some [sampleRelease2]) =
      DownloadLatestGithubRelease "GET" "d4x1/repo" "app.zip"
        (some [sampleRelease2]) :=
  handler_deterministic "GET" "d4x1/repo" "app.zip" (some [sampleRelease2])
    "GET" "d4x1/repo" "app.zip" (some [sampleRelease2]) rfl rfl rfl rfl

/-! ## Nil receiver safety (C10) -/

/-- C10: `AssertByName` on a `nil` receiver with a non-empty name returns
the error `"github api response is empty"` (the nil check precedes any
field access), and the empty-name check takes precedence over every other
check: an empty name yields `"release filename is empty"` for any receiver,
nil included. -/
theorem assertByName_nil_receiver (name : String) (hname : name ≠ "")
    (r : Option GitHubReleasesResp) :
    AssertByName none name = .error "github api response is empty" ∧
    AssertByName r "" = .error "release filename is empty" := by
  have hlen : ¬ name.length = 0 := fun h =>
    hname ((string_length_zero_iff name).mp h)
  exact ⟨by simp [AssertByName, hlen], rfl⟩

/-- C10 witness: the nil-receiver error at the concrete name `"app.zip"`,
and the empty-name error on the nil receiver. -/
theorem assertByName_nil_receiver_witness :
    AssertByName none "app.zip" = .error "github api response is empty" ∧
    AssertByName none "" = .error "release filename is empty" :=
  assertByName_nil_receiver "app.zip" (by decide) none
